import Mathlib

/-!
# Verification of the TechCrunch "AI today" crawler (`function_app.py`)

A shallow embedding of the single-source crawler: link discovery over a
category page, the four-strategy timestamp resolver, the body resolver,
the today-in-KST filter (`crawl_today`), and the HTTP handler (`ai_today`).

External collaborators are modelled at their interfaces:
* `requests.get` / page fetching: a function `String → Option ArticleDoc`
  (resp. `String → Option CatDoc` for the category page); `none` models a
  raised transport or parse error.
* BeautifulSoup: article and category pages are modelled as the structured
  view that the code reads off the parsed tree (`ArticleDoc`, `CatDoc`).
* `json.loads` on a JSON-LD script block: `Option Json`; `none` models a
  malformed block (a raised `JSONDecodeError`).
* Python `set` iteration (`list(links)`): an enumeration function
  `List String → List String` constrained to be a permutation; CPython's
  string-hash randomisation makes the true order unspecified.
* Naive datetimes: `astimezone` on a naive value uses the process-local
  utc offset, modelled by an explicit `localOff` parameter (minutes).
Pages whose processing raises in a way the per-article handler would catch
are modelled by `none` (for the whole page, or for `parse_article`'s result
when the JSON-LD `articleBody` is a truthy non-string and `.strip()` would
raise).
-/

/-! ## Calendar arithmetic (proleptic Gregorian, days since 1970-01-01) -/

/-- A calendar date, as produced by Python `datetime.date()`. -/
structure Date where
  y : Int
  m : Int
  d : Int
deriving DecidableEq, Repr

/-- Leap-year test of the proleptic Gregorian calendar. -/
def isLeap (y : Int) : Bool :=
  y % 4 == 0 && (y % 100 != 0 || y % 400 == 0)

/-- Number of days in a month (as `datetime` validates day-of-month). -/
def daysInMonth (y m : Int) : Int :=
  if m == 2 then (if isLeap y then 29 else 28)
  else if m == 4 || m == 6 || m == 9 || m == 11 then 30
  else 31

/-- Days from 1970-01-01 to the civil date `y-m-d` (Hinnant's algorithm,
written with floor division). -/
def daysFromCivil (y m d : Int) : Int :=
  let y' := y - (if m ≤ 2 then 1 else 0)
  let era := y'.fdiv 400
  let yoe := y' - era * 400
  let mAdj := if m > 2 then m - 3 else m + 9
  let doy := (153 * mAdj + 2).fdiv 5 + d - 1
  let doe := yoe * 365 + yoe.fdiv 4 - yoe.fdiv 100 + doy
  era * 146097 + doe - 719468

/-- Civil date of a day count since 1970-01-01 (inverse direction of
`daysFromCivil`; Hinnant's algorithm). -/
def civilFromDays (z0 : Int) : Date :=
  let z := z0 + 719468
  let era := z.fdiv 146097
  let doe := z - era * 146097
  let yoe := (doe - doe.fdiv 1460 + doe.fdiv 36524 - doe.fdiv 146096).fdiv 365
  let y := yoe + era * 400
  let doy := doe - (365 * yoe + yoe.fdiv 4 - yoe.fdiv 100)
  let mp := (5 * doy + 2).fdiv 153
  let d := doy - (153 * mp + 2).fdiv 5 + 1
  let m := if mp < 10 then mp + 3 else mp - 9
  ⟨if m ≤ 2 then y + 1 else y, m, d⟩

/-! ## Datetimes

A parsed datetime (`datetime.fromisoformat` / `strptime` result) keeps its
naive components plus an optional utc offset in minutes (`none` = naive).
An aware datetime produced by `astimezone` is identified by its absolute
instant (seconds since epoch) plus the offset it is rendered in; Python
compares aware datetimes by instant, which this representation makes
definitional. -/

/-- Result of parsing a datetime string: components plus optional utc
offset in minutes (`none` models a naive datetime). -/
structure ParsedDT where
  y : Int
  m : Int
  d : Int
  h : Int
  mi : Int
  s : Int
  tz : Option Int
deriving DecidableEq, Repr

/-- An aware datetime after `astimezone`: absolute instant (seconds since
the epoch) plus the utc offset (minutes) it is rendered in. -/
structure Aware where
  instant : Int
  offset : Int
deriving DecidableEq, Repr

/-- Seconds since the epoch of the naive components of a parsed datetime. -/
def ParsedDT.naiveSecs (p : ParsedDT) : Int :=
  daysFromCivil p.y p.m p.d * 86400 + p.h * 3600 + p.mi * 60 + p.s

/-- Absolute instant of a parsed datetime; a naive datetime is interpreted
in the process-local zone `localOff` (minutes), as Python `astimezone`
does. -/
def ParsedDT.instantOf (localOff : Int) (p : ParsedDT) : Int :=
  p.naiveSecs - 60 * (p.tz.getD localOff)

/-- Model of `dt.astimezone(tz)` for a fixed-offset target zone (minutes). -/
def astz (localOff targetOff : Int) (p : ParsedDT) : Aware :=
  ⟨p.instantOf localOff, targetOff⟩

/-- Model of `aware.astimezone(KST).date()`: calendar date of an instant rendered at
utc offset +9:00 (Asia/Seoul, 32400 seconds). -/
def kstDate (instant : Int) : Date :=
  civilFromDays ((instant + 32400).fdiv 86400)

/-! ## Character/string helpers shared by the parsers -/

/-- Numeric value of a decimal digit character. -/
def digitVal (c : Char) : Int :=
  (c.toNat : Int) - 48

/-- Parse exactly two decimal digits. -/
def parse2 : List Char → Option (Int × List Char)
  | a :: b :: rest =>
      if a.isDigit && b.isDigit then some (10 * digitVal a + digitVal b, rest) else none
  | _ => none

/-- Parse exactly four decimal digits. -/
def parse4 : List Char → Option (Int × List Char)
  | a :: b :: c :: d :: rest =>
      if a.isDigit && b.isDigit && c.isDigit && d.isDigit then
        some (1000 * digitVal a + 100 * digitVal b + 10 * digitVal c + digitVal d, rest)
      else none
  | _ => none

/-- Expect a fixed character. -/
def expectCh (c : Char) : List Char → Option (List Char)
  | x :: rest => if x = c then some rest else none
  | [] => none

/-! ## `datetime.fromisoformat` (after the code's `.replace("Z", "+00:00")`)

Model of the CPython parser for the formats the code can feed it:
`YYYY-MM-DD[<sep>HH[:MM[:SS[.fff[fff]]]][±HH:MM[:SS]]]`, with the range
validation `datetime` itself performs.  The fractional seconds are
validated (3 or 6 digits) and dropped; offset seconds are validated and
dropped.  Anything else yields `none` (a raised `ValueError`). -/

/-- Parse the optional `±HH:MM[:SS]` utc-offset suffix; returns the offset
in minutes. -/
def parseTzSuffix : List Char → Option Int
  | [] => some 0
  | sign :: rest =>
      if sign = '+' || sign = '-' then
        match parse2 rest with
        | some (oh, rest1) =>
          match expectCh ':' rest1 with
          | some rest2 =>
            match parse2 rest2 with
            | some (om, rest3) =>
              let tail : Option Unit :=
                match rest3 with
                | [] => some ()
                | _ =>
                  match expectCh ':' rest3 with
                  | some rest4 =>
                    match parse2 rest4 with
                    | some (os, []) => if os ≤ 59 then some () else none
                    | _ => none
                  | none => none
              match tail with
              | some _ =>
                if oh ≤ 23 && om ≤ 59 then
                  some ((if sign = '-' then -1 else 1) * (oh * 60 + om))
                else none
              | none => none
            | none => none
          | none => none
        | none => none
      else none

-- The tz suffix above returns `some 0` on empty input; the caller
-- distinguishes "no suffix" before calling it.

/-- Parse `HH[:MM[:SS[.fff[fff]]]]` followed by an optional offset. -/
def parseTimePart (l : List Char) : Option (Int × Int × Int × Option Int) :=
  match parse2 l with
  | none => none
  | some (hh, rest) =>
    let step : Int × Int × List Char → Option (Int × Int × List Char) := fun (mi, s, r) =>
      match r with
      | ':' :: r1 =>
        match parse2 r1 with
        | some (v, r2) => some (if mi < 0 then (v, s, r2) else (mi, v, r2))
        | none => none
      | _ => some (mi, s, r)
    match step (-1, -1, rest) with
    | none => none
    | some (mi0, _, rest1) =>
      match step (mi0, -1, rest1) with
      | none => none
      | some (mi1, s1, rest2) =>
        -- fractional seconds: '.' then exactly 3 or 6 digits (validated, dropped)
        let afterFrac : Option (List Char) :=
          match rest2 with
          | '.' :: fr =>
            let ds := fr.takeWhile Char.isDigit
            let rest3 := fr.drop ds.length
            if ds.length = 3 || ds.length = 6 then some rest3 else none
          | _ => some rest2
        match afterFrac with
        | none => none
        | some rest4 =>
          let mi := if mi1 < 0 then 0 else mi1
          let ss := if s1 < 0 then 0 else s1
          if hh ≤ 23 && mi ≤ 59 && ss ≤ 59 then
            match rest4 with
            | [] => some (hh, mi, ss, none)
            | _ =>
              match parseTzSuffix rest4 with
              | some off => some (hh, mi, ss, some off)
              | none => none
          else none

/-- Model of `datetime.fromisoformat` on the ISO-8601 subset described above. -/
def fromiso (str : String) : Option ParsedDT :=
  let l := str.toList
  match parse4 l with
  | none => none
  | some (yy, r1) =>
    match expectCh '-' r1 with
    | none => none
    | some r2 =>
      match parse2 r2 with
      | none => none
      | some (mm, r3) =>
        match expectCh '-' r3 with
        | none => none
        | some r4 =>
          match parse2 r4 with
          | none => none
          | some (dd, r5) =>
            if 1 ≤ yy && yy ≤ 9999 && 1 ≤ mm && mm ≤ 12 && 1 ≤ dd && dd ≤ daysInMonth yy mm then
              match r5 with
              | [] => some ⟨yy, mm, dd, 0, 0, 0, none⟩
              | _ :: r6 =>
                match parseTimePart r6 with
                | some (hh, mi, ss, tz) => some ⟨yy, mm, dd, hh, mi, ss, tz⟩
                | none => none
            else none

/-- The code's `content.replace("Z", "+00:00")` (Python `str.replace`
replaces every occurrence; the needle is a single character). -/
def replaceZL : List Char → List Char
  | [] => []
  | 'Z' :: t => '+' :: '0' :: '0' :: ':' :: '0' :: '0' :: replaceZL t
  | c :: t => c :: replaceZL t

/-- Model of `content.replace("Z", "+00:00")` on strings. -/
def replaceZ (s : String) : String :=
  ⟨replaceZL s.toList⟩

/-! ## URLs: `urllib.parse.urlsplit` / `urljoin` model

The code uses `urlparse(href).netloc/.path` and
`urljoin(CATEGORY_URL, href)`.  URLs are plain strings; parsing splits
scheme, netloc, path, query and fragment exactly as CPython's `urlsplit`
does for http(s)-style URLs (path parameters after `;`, which TechCrunch
URLs never carry, are left inside the path).  `urljoin` follows CPython's
algorithm, including the removal of `.`/`..` segments when resolving a
relative path. -/

/-- Characters allowed in a URL scheme after the first letter. -/
def isSchemeChar (c : Char) : Bool :=
  c.isAlphanum || c = '+' || c = '-' || c = '.'

/-- Split at the first `':'`: `some (before, after)`, or `none` if absent. -/
def splitAtColon : List Char → Option (List Char × List Char)
  | [] => none
  | c :: t =>
      if c = ':' then some ([], t)
      else (splitAtColon t).map (fun p => (c :: p.1, p.2))

/-- The components `urlsplit` returns (strings of characters; empty means
absent, as in Python). -/
structure UrlParts where
  scheme : List Char
  netloc : List Char
  path : List Char
  query : List Char
  frag : List Char
deriving DecidableEq, Repr

/-- Scheme detection of `urlsplit`: the text before the first `':'` when it
is a nonempty run of scheme characters starting with a letter. -/
def schemeSplit (s : List Char) : List Char × List Char :=
  match splitAtColon s with
  | none => ([], s)
  | some (pre, post) =>
      match pre with
      | [] => ([], s)
      | c :: _ => if c.isAlpha && pre.all isSchemeChar then (pre, post) else ([], s)

/-- Split a scheme-stripped URL into netloc and remainder. -/
def netlocSplit : List Char → List Char × List Char
  | '/' :: '/' :: t =>
      (t.takeWhile (fun c => c ≠ '/' && c ≠ '?' && c ≠ '#'),
       t.dropWhile (fun c => c ≠ '/' && c ≠ '?' && c ≠ '#'))
  | rest => ([], rest)

/-- Split the trailing `?query#fragment` part. -/
def queryFragSplit : List Char → List Char × List Char
  | '?' :: t => (t.takeWhile (fun c => c ≠ '#'), (t.dropWhile (fun c => c ≠ '#')).drop 1)
  | '#' :: t => ([], t)
  | _ => ([], [])

/-- Model of `urlsplit` on a list of characters. -/
def urlsplitL (s : List Char) : UrlParts :=
  let sp := schemeSplit s
  let nl := netlocSplit sp.2
  let path := nl.2.takeWhile (fun c => c ≠ '?' && c ≠ '#')
  let tail := nl.2.dropWhile (fun c => c ≠ '?' && c ≠ '#')
  let qf := queryFragSplit tail
  ⟨sp.1, nl.1, path, qf.1, qf.2⟩

/-- The netloc/path portion rebuilt by `urlunsplit`. -/
def unsplitCore (p : UrlParts) : List Char :=
  if p.netloc ≠ [] || p.path.take 2 = ['/', '/'] then
    '/' :: '/' :: p.netloc ++
      (if p.path ≠ [] && p.path.head? ≠ some '/' then '/' :: p.path else p.path)
  else p.path

/-- Model of `urlunsplit` (the `?query`/`#fragment` suffixes appended when
nonempty). -/
def urlunsplitL (p : UrlParts) : List Char :=
  ((if p.scheme ≠ [] then p.scheme ++ ':' :: unsplitCore p else unsplitCore p) ++
      (if p.query ≠ [] then '?' :: p.query else [])) ++
    (if p.frag ≠ [] then '#' :: p.frag else [])

/-- Schemes for which `urljoin` performs relative resolution (`uses_relative`
restricted to the schemes reachable here: the bases are always http(s)). -/
def usesRelative (scheme : List Char) : Bool :=
  scheme = [] || scheme = "http".toList || scheme = "https".toList

/-- Model of `path.split('/')`. -/
def splitSlash (l : List Char) : List (List Char) :=
  l.splitOn '/'

/-- Model of `'/'.join(segs)`. -/
def joinSlash (segs : List (List Char)) : List Char :=
  (segs.intersperse ['/']).flatten

/-- CPython's `segments[1:-1] = filter(None, segments[1:-1])`: drop empty
segments strictly between the first and the last. -/
def filterInner : List (List Char) → List (List Char)
  | [] => []
  | [a] => [a]
  | a :: rest => a :: filterInnerTail rest
where
  filterInnerTail : List (List Char) → List (List Char)
    | [] => []
    | [a] => [a]
    | a :: rest => if a = [] then filterInnerTail rest else a :: filterInnerTail rest

/-- Dot-segment removal of `urljoin` (the `resolved_path` loop); the
accumulator is kept reversed. -/
def resolveSegs : List (List Char) → List (List Char) → List (List Char)
  | acc, [] => acc.reverse
  | acc, seg :: rest =>
      if seg = ['.', '.'] then resolveSegs acc.tail rest
      else if seg = ['.'] then resolveSegs acc rest
      else resolveSegs (seg :: acc) rest

/-- Model of `urljoin(base, url)` (CPython algorithm, on the subset of schemes in
play; `params` are not split out, matching TechCrunch-style URLs). -/
def urljoinL (base url : List Char) : List Char :=
  if base = [] then url
  else if url = [] then base
  else
    let B := urlsplitL base
    let U := urlsplitL url
    let scheme := if U.scheme = [] then B.scheme else U.scheme
    if scheme ≠ B.scheme || !usesRelative scheme then url
    else if U.netloc ≠ [] then urlunsplitL ⟨scheme, U.netloc, U.path, U.query, U.frag⟩
    else
      let netloc := B.netloc
      if U.path = [] then
        urlunsplitL ⟨scheme, netloc, B.path,
          (if U.query = [] then B.query else U.query), U.frag⟩
      else
        let segments :=
          if U.path.head? = some '/' then splitSlash U.path
          else
            let bp := splitSlash B.path
            let bp := if bp.getLast? ≠ some ([] : List Char) then bp.dropLast else bp
            filterInner (bp ++ splitSlash U.path)
        let resolved := resolveSegs [] segments
        let resolved :=
          if segments.getLast? = some ['.', '.'] || segments.getLast? = some ['.'] then
            resolved ++ [[]]
          else resolved
        let rpath := joinSlash resolved
        urlunsplitL ⟨scheme, netloc, (if rpath = [] then ['/'] else rpath), U.query, U.frag⟩

/-- String-level `urljoin`. -/
def urljoinS (base url : String) : String :=
  ⟨urljoinL base.toList url.toList⟩

/-! ## Link discovery (`get_article_links`, `is_article_url`,
`normalize_link`) -/

/-- The module constant `CATEGORY_URL`. -/
def CATEGORY_URL : String := "https://techcrunch.com/category/artificial-intelligence/"

/-- Does the list start with `/20dd/dd/` (two runs of digits after `/20`)?
This is the anchored head of the regex `/20\d{2}/\d{2}/`. -/
def ymAt : List Char → Bool
  | '/' :: '2' :: '0' :: a :: b :: '/' :: c :: d :: '/' :: _ =>
      a.isDigit && b.isDigit && c.isDigit && d.isDigit
  | _ => false

/-- Model of `re.search(r"/20\d{2}/\d{2}/", path) is not None`: the pattern matched
anywhere. -/
def hasYearMonth : List Char → Bool
  | [] => false
  | c :: t => ymAt (c :: t) || hasYearMonth t

/-- Does `needle` occur at the head of `hay`? -/
def occursAt (needle hay : List Char) : Bool :=
  needle.isPrefixOf hay

/-- Python `needle in hay` on strings: `needle` occurs somewhere. -/
def containsSub (needle : List Char) : List Char → Bool
  | [] => needle = []
  | c :: t => occursAt needle (c :: t) || containsSub needle t

/-- Model of `is_article_url`: netloc contains `"techcrunch.com"` or is empty, and
the path carries a `/20YY/MM/` segment. -/
def is_article_url (href : String) : Bool :=
  let u := urlsplitL href.toList
  (containsSub "techcrunch.com".toList u.netloc || u.netloc = []) && hasYearMonth u.path

/-- Model of `normalize_link`: join against the module constant `CATEGORY_URL`
(not against any caller-supplied category page). -/
def normalize_link (href : String) : String :=
  urljoinS CATEGORY_URL href

/-- A category page as the code reads it off the parsed tree: for each
`<h3>` (document order) the `href` of its first anchor-with-href, if any;
and every anchor-with-href of the page in document order. -/
structure CatDoc where
  h3s : List (Option String)
  anchors : List String
deriving Repr

/-- Model of `set.add`: the membership-set of collected links (order of this list is
bookkeeping only; the enumeration handed to `list(...)` is a separate,
unspecified permutation). -/
def insertLink (links : List String) (u : String) : List String :=
  if u ∈ links then links else links ++ [u]

/-- Pass 1, iterating the `<h3>`-wrapped anchors. -/
def linkPass1Go : List String → List (Option String) → List String
  | acc, [] => acc
  | acc, none :: rest => linkPass1Go acc rest
  | acc, some href :: rest =>
      linkPass1Go (if is_article_url href then insertLink acc (normalize_link href) else acc) rest

/-- Pass 1: anchors wrapped in `<h3>` elements. -/
def linkPass1 (h3s : List (Option String)) : List String :=
  linkPass1Go [] h3s

/-- Pass 2: every anchor, stopping once the set has reached `limit`
(the check runs after each iteration, added or not). -/
def linkPass2 (limit : Nat) : List String → List String → List String
  | acc, [] => acc
  | acc, href :: rest =>
      let acc' := if is_article_url href then insertLink acc (normalize_link href) else acc
      if limit ≤ acc'.length then acc' else linkPass2 limit acc' rest

/-- The deterministic membership-set built by both passes. -/
def collectedLinks (doc : CatDoc) (limit : Nat) : List String :=
  let s := linkPass1 doc.h3s
  if s.length < limit then linkPass2 limit s doc.anchors else s

/-- Model of `get_article_links`: `list(links)[:limit]`, where `list` enumerates the
set in an unspecified order modelled by `enum`. -/
def get_article_links (doc : CatDoc) (limit : Nat)
    (enum : List String → List String) : List String :=
  (enum (collectedLinks doc limit)).take limit

/-- Validity of a set-enumeration model: it returns the same elements,
each exactly once (every CPython set iteration does). -/
def ValidEnum (enum : List String → List String) : Prop :=
  ∀ l : List String, List.Perm (enum l) l

/-! ## JSON values and JSON-LD scanning -/

/-- A JSON value as `json.loads` returns it (numbers collapsed to `Int`;
the claims never inspect numeric precision). -/
inductive Json where
  | null : Json
  | str : String → Json
  | num : Int → Json
  | arr : List Json → Json
  | obj : List (String × Json) → Json

/-- Python truthiness of a JSON value. -/
def Json.truthy : Json → Bool
  | .null => false
  | .str s => s != ""
  | .num n => n != 0
  | .arr l => !l.isEmpty
  | .obj f => !f.isEmpty

/-- Model of `dict.get`: first binding of the key, if any. -/
def jget (fields : List (String × Json)) (k : String) : Option Json :=
  (fields.find? (fun p => p.1 = k)).map Prod.snd

/-- Truthiness of `dict.get`'s result (`None` is falsy). -/
def truthyO : Option Json → Bool
  | some j => j.truthy
  | none => false

/-- Model of `obj.get("@type") in {"NewsArticle", "Article", "BlogPosting"}`. -/
def typeOk (j : Option Json) : Bool :=
  match j with
  | some (.str s) => s = "NewsArticle" || s = "Article" || s = "BlogPosting"
  | _ => false

/-- Model of `candidates = data if isinstance(data, list) else [data]`. -/
def jsonCands : Json → List Json
  | .arr l => l
  | j => [j]

/-- Model of `obj.get("datePublished") or obj.get("dateCreated")`. -/
def dpOf (fields : List (String × Json)) : Option Json :=
  let a := jget fields "datePublished"
  if truthyO a then a else jget fields "dateCreated"

/-- Inner loop of `get_ldjson_datetime` over one script's candidate
objects; `Except.error` models an exception (bad ISO string, or `.replace`
on a non-string) that aborts this script and moves to the next one. -/
def scanDateObjs : List Json → Except Unit (Option ParsedDT)
  | [] => .ok none
  | .obj fields :: rest =>
      if typeOk (jget fields "@type") then
        let dp := dpOf fields
        if truthyO dp then
          match dp with
          | some (.str s) =>
            match fromiso (replaceZ s) with
            | some d => .ok (some d)
            | none => .error ()
          | _ => .error ()
        else scanDateObjs rest
      else scanDateObjs rest
  | _ :: rest => scanDateObjs rest

/-- Model of `get_ldjson_datetime` over the page's JSON-LD blocks (`none` in the
list = a block `json.loads` rejects, skipped by the `except`). -/
def get_ldjson_datetime : List (Option Json) → Option ParsedDT
  | [] => none
  | none :: rest => get_ldjson_datetime rest
  | some data :: rest =>
      match scanDateObjs (jsonCands data) with
      | .ok (some d) => some d
      | _ => get_ldjson_datetime rest

/-- Inner loop of `get_ldjson_article_body`: first truthy `articleBody` of
a recognised object (returned verbatim, whatever JSON type it has). -/
def scanBodyObjs : List Json → Option Json
  | [] => none
  | .obj fields :: rest =>
      if typeOk (jget fields "@type") then
        match jget fields "articleBody" with
        | some b => if b.truthy then some b else scanBodyObjs rest
        | none => scanBodyObjs rest
      else scanBodyObjs rest
  | _ :: rest => scanBodyObjs rest

/-- Model of `get_ldjson_article_body`. -/
def get_ldjson_article_body : List (Option Json) → Option Json
  | [] => none
  | none :: rest => get_ldjson_article_body rest
  | some data :: rest =>
      match scanBodyObjs (jsonCands data) with
      | some b => some b
      | none => get_ldjson_article_body rest

/-! ## The free-text date heuristic (`parse_human_datetime`) -/

/-- The English month names in the regex alternation, with their numbers. -/
def monthNames : List (String × Int) :=
  [("January", 1), ("February", 2), ("March", 3), ("April", 4), ("May", 5),
   ("June", 6), ("July", 7), ("August", 8), ("September", 9), ("October", 10),
   ("November", 11), ("December", 12)]

/-- Python `\s` for the ASCII text in play. -/
def isPySpace (c : Char) : Bool :=
  c = ' ' || c = '\t' || c = '\n' || c = '\x0d' || c = '\x0c' || c = '\x0b'

/-- Try the regex `(Month)\s+\d{1,2},\s+\d{4}` anchored at the head of the
list; returns the captured `(month, day, year)`.  `\d{1,2}` is greedy with
one backtrack, exactly as `re` matches it. -/
def matchYMD (l : List Char) : Option (Int × Int × Int) :=
  (monthNames.find? (fun p => occursAt p.1.toList l)).bind fun (name, mnum) =>
    let r1 := l.drop name.toList.length
    let ws := r1.takeWhile isPySpace
    if ws = [] then none
    else
      let r2 := r1.drop ws.length
      let afterDay : Option (Int × List Char) :=
        match r2 with
        | a :: b :: rest =>
          if a.isDigit then
            if b.isDigit then
              match rest with
              | ',' :: rest' => some (10 * digitVal a + digitVal b, rest')
              | _ => none
            else if b = ',' then some (digitVal a, rest)
            else none
          else none
        | _ => none
      afterDay.bind fun (day, r3) =>
        let ws2 := r3.takeWhile isPySpace
        if ws2 = [] then none
        else
          match parse4 (r3.drop ws2.length) with
          | some (yr, _) => some (mnum, day, yr)
          | none => none

/-- Model of `re.search`: first position (left to right) where the pattern matches. -/
def scanYMD : List Char → Option (Int × Int × Int)
  | [] => none
  | c :: t =>
      match matchYMD (c :: t) with
      | some r => some r
      | none => scanYMD t

/-- Model of `parse_human_datetime`: regex search, then `strptime("%B %d, %Y")`
validation (a syntactically matched but impossible date raises, caught to
`None`), midnight utc. -/
def parse_human_datetime (text : String) : Option ParsedDT :=
  match scanYMD text.toList with
  | none => none
  | some (m, d, y) =>
      if 1 ≤ y && 1 ≤ d && d ≤ daysInMonth y m then
        some ⟨y, m, d, 0, 0, 0, some 0⟩
      else none

/-! ## Article pages and the remaining strategies -/

/-- A `<meta>` tag as the code reads it: its `content` attribute, if set. -/
structure MetaTag where
  content : Option String
deriving Repr

/-- The first `<time>` element: its `datetime` attribute and its visible
text (`get_text(" ", strip=True)`). -/
structure TimeTag where
  datetimeAttr : Option String
  text : String
deriving Repr

/-- A `<p>` inside the body container: its visible text, and whether it is
nested in an `aside`/`figcaption`/`nav`/`footer` (the excluded regions). -/
structure Para where
  text : String
  excluded : Bool
deriving Repr

/-- An article page as the code reads it off the parsed tree. -/
structure ArticleDoc where
  /-- first `<meta property="article:published_time">`, if any -/
  metaByProperty : Option MetaTag
  /-- first `<meta name="article:published_time">`, if any -/
  metaByName : Option MetaTag
  /-- the `application/ld+json` script blocks, in document order;
  `none` = `json.loads` rejects the block -/
  ldScripts : List (Option Json)
  /-- first `<time>` element, if any -/
  timeTag : Option TimeTag
  /-- Model of `soup.get_text(" ", strip=True)` of the whole page -/
  pageText : String
  /-- first `<h1>`'s stripped text, if any -/
  h1 : Option String
  /-- the `<p>` elements of the first `<article>` (or of the whole page) -/
  paragraphs : List Para

/-- Model of `get_meta_datetime(soup, "article:published_time")`: the
property-match wins over the name-match; a found tag without truthy
content, or with unparseable content, yields `None` without falling back
to the other tag. -/
def get_meta_datetime (doc : ArticleDoc) : Option ParsedDT :=
  match doc.metaByProperty <|> doc.metaByName with
  | none => none
  | some tag =>
      match tag.content with
      | none => none
      | some c => if c = "" then none else fromiso (replaceZ c)

/-- Model of `get_time_tag_datetime`: the `datetime` attribute parsed as ISO-8601,
falling back to the visible text via the human-date heuristic. -/
def get_time_tag_datetime (doc : ArticleDoc) : Option ParsedDT :=
  match doc.timeTag with
  | none => none
  | some t =>
      let fromAttr :=
        match t.datetimeAttr with
        | some s => if s = "" then none else fromiso (replaceZ s)
        | none => none
      match fromAttr with
      | some d => some d
      | none => if t.text ≠ "" then parse_human_datetime t.text else none

/-- Model of `get_text_datetime_fallback`. -/
def get_text_datetime_fallback (doc : ArticleDoc) : Option ParsedDT :=
  parse_human_datetime doc.pageText

/-- The timestamp resolver chain of `parse_article` (lines 113-118): the
four strategies in fixed order, first non-`None` wins. -/
def resolve_published (doc : ArticleDoc) : Option ParsedDT :=
  match get_meta_datetime doc with
  | some d => some d
  | none =>
    match get_ldjson_datetime doc.ldScripts with
    | some d => some d
    | none =>
      match get_time_tag_datetime doc with
      | some d => some d
      | none => get_text_datetime_fallback doc

/-- Model of `extract_paragraphs`: kept paragraphs (not excluded, text length ≥ 2)
joined by blank lines. -/
def extract_paragraphs (ps : List Para) : String :=
  String.intercalate "\n\n"
    ((ps.filter (fun p => !p.excluded && 2 ≤ p.text.length)).map Para.text)

/-- The body text before the final strip: the JSON-LD `articleBody` when
truthy, else the paragraph concatenation.  `none` models the crash of
`.strip()` when the truthy `articleBody` is not a string (the per-article
`except` in the orchestrator then skips the page). -/
def bodyOf (doc : ArticleDoc) : Option String :=
  match get_ldjson_article_body doc.ldScripts with
  | some (.str s) => some s
  | some _ => none
  | none => some (extract_paragraphs doc.paragraphs)

/-- Python `str.strip()` (whitespace both ends; the ASCII whitespace in
play). -/
def pyStrip (s : String) : String :=
  ⟨((s.toList.dropWhile isPySpace).reverse.dropWhile isPySpace).reverse⟩

/-! ## Article extraction and the orchestrator -/

/-- The Article record `parse_article` returns (timestamps as the aware
datetimes behind the two isoformat string fields). -/
structure Article where
  url : String
  title : String
  published_utc : Option Aware
  published_kst : Option Aware
  body : String
deriving DecidableEq

/-- Model of `parse_article` on an already-fetched page.  `localOff` is the
process-local utc offset in minutes, used only when the resolved datetime
is naive (Python `astimezone` then assumes the local zone).  `none` models
the one uncaught in-function crash (truthy non-string `articleBody` hitting
`.strip()`); the orchestrator's per-article `except` turns it into a
skip. -/
def parse_article (localOff : Int) (url : String) (doc : ArticleDoc) : Option Article :=
  match bodyOf doc with
  | none => none
  | some bodyText =>
      let published := resolve_published doc
      some { url := url
             title := (doc.h1.getD "")
             published_utc := published.map (astz localOff 0)
             published_kst := published.map (astz localOff 540)
             body := pyStrip bodyText }

/-- Model of `is_today_kst(dt, today_kst)`: the datetime rendered in KST has the
same calendar date as the reference date. -/
def is_today_kst (a : Aware) (today : Date) : Bool :=
  kstDate a.instant == today

/-- The per-link loop of `crawl_today`: fetch + parse each url (a `none`
page models the raised, caught, logged transport/parse error), keep the
article when its KST timestamp exists and falls on the reference date. -/
def crawlLoop (localOff : Int) (pages : String → Option ArticleDoc) (today : Date) :
    List String → List Article
  | [] => []
  | url :: rest =>
      match pages url with
      | none => crawlLoop localOff pages today rest
      | some doc =>
          match parse_article localOff url doc with
          | none => crawlLoop localOff pages today rest
          | some art =>
              match art.published_kst with
              | some aw =>
                  if is_today_kst aw today then art :: crawlLoop localOff pages today rest
                  else crawlLoop localOff pages today rest
              | none => crawlLoop localOff pages today rest

/-- Model of `crawl_today`: fetch the category page (`web`; `none` models the raised
transport error, which propagates), discover links, run the loop.  The
pacing sleep has no observable effect and is dropped. -/
def crawl_today (localOff : Int) (enum : List String → List String)
    (web : String → Option CatDoc) (pages : String → Option ArticleDoc)
    (categoryUrl : String) (today : Date) (limit : Nat) : Option (List Article) :=
  match web categoryUrl with
  | none => none
  | some cat => some (crawlLoop localOff pages today (get_article_links cat limit enum))

/-! ## The HTTP handler (`ai_today`) -/

/-- A parsed request body (`req.get_json()`), with the values the handler
reads; `limit`/`sleep` carry the result of the code's `str(...)`
conversion. -/
structure BodyJson where
  date : Option String
  limit : Option String
  sleep : Option String
  categoryUrl : Option String

/-- An HTTP request: method, the four query parameters, and the body
(`none` models `get_json` raising `ValueError`, which the code turns into
`{}`). -/
structure HttpReq where
  isPost : Bool
  qDate : Option String
  qLimit : Option String
  qSleep : Option String
  qCat : Option String
  body : Option BodyJson

/-- Model of `date_str` after the merge: `body.get("date", date_str)` on POST —
a body value present overrides the query value. -/
def effDate (r : HttpReq) : Option String :=
  let q := r.qDate
  if r.isPost then
    match r.body with
    | some b => match b.date with | some v => some v | none => q
    | none => q
  else q

/-- Model of `limit_str` after the merge (`str(body["limit"])` when the key is
present). -/
def effLimit (r : HttpReq) : Option String :=
  let q := r.qLimit
  if r.isPost then
    match r.body with
    | some b => match b.limit with | some v => some v | none => q
    | none => q
  else q

/-- Model of `sleep_str` after the merge. -/
def effSleep (r : HttpReq) : Option String :=
  let q := r.qSleep
  if r.isPost then
    match r.body with
    | some b => match b.sleep with | some v => some v | none => q
    | none => q
  else q

/-- Model of `category_url` after the merge (query value or the default, then a
body value present overrides). -/
def effCatUrl (r : HttpReq) : String :=
  let q := match r.qCat with
           | some s => if s = "" then CATEGORY_URL else s
           | none => CATEGORY_URL
  if r.isPost then
    match r.body with
    | some b => match b.categoryUrl with | some v => v | none => q
    | none => q
  else q

/-- Python `int(str)`: optional surrounding whitespace, optional sign,
a nonempty digit run (`None` = raised `ValueError`). -/
def pyInt (s : String) : Option Int :=
  let l := ((s.toList.dropWhile isPySpace).reverse.dropWhile isPySpace).reverse
  let core : List Char → Option Int := fun ds =>
    if ds ≠ [] && ds.all Char.isDigit then
      some (ds.foldl (fun acc c => 10 * acc + digitVal c) 0)
    else none
  match l with
  | '+' :: ds => core ds
  | '-' :: ds => (core ds).map Neg.neg
  | ds => core ds

/-- Python `float(str)` on the plain-decimal subset `[±]ddd[.ddd]`
(`None` = raised `ValueError`). -/
def pyFloat (s : String) : Option ℚ :=
  let l := ((s.toList.dropWhile isPySpace).reverse.dropWhile isPySpace).reverse
  let core : List Char → Option ℚ := fun ds =>
    let ip := ds.takeWhile Char.isDigit
    let rest := ds.drop ip.length
    let fp : Option (List Char) :=
      match rest with
      | [] => some []
      | '.' :: fr => if fr.all Char.isDigit then some fr else none
      | _ => none
    match fp with
    | none => none
    | some fr =>
        if ip = [] && fr = [] then none
        else
          let ipv : ℚ := (ip.foldl (fun acc c => 10 * acc + digitVal c) 0 : Int)
          let frv : ℚ := (fr.foldl (fun acc c => 10 * acc + digitVal c) 0 : Int)
          some (ipv + frv / ((10 : ℚ) ^ fr.length))
  match l with
  | '+' :: ds => core ds
  | '-' :: ds => (core ds).map Neg.neg
  | ds => core ds

/-- Lines 300-305: parse `limit`, clamp to `[1, 80]`, default 40 on any
failure (also when the string is empty, which the code's truthiness test
skips with the same result). -/
def resolveLimit (o : Option String) : Int :=
  match o with
  | none => 40
  | some s =>
      match pyInt s with
      | some n => max 1 (min n 80)
      | none => 40

/-- Lines 307-316: parse `sleep`, clamp to `[0, 2]`, default 0.7 on any
failure. -/
def resolveSleep (o : Option String) : ℚ :=
  match o with
  | none => 7/10
  | some s =>
      match pyFloat s with
      | some v => if v < 0 then 0 else if v > 2 then 2 else v
      | none => 7/10

/-- Lines 288-297: `map(int, date_str.split("-"))` into
`datetime(yyyy, mm, dd, tzinfo=KST)`; any failure (wrong arity, bad int,
out-of-range date) raises, answered with the 400 response. -/
def parseDateParam (s : String) : Option Date :=
  match (s.toList.splitOn '-').map (fun l => (⟨l⟩ : String)) with
  | [a, b, c] =>
      match pyInt a, pyInt b, pyInt c with
      | some y, some m, some d =>
          if 1 ≤ y && y ≤ 9999 && 1 ≤ m && m ≤ 12 && 1 ≤ d && d ≤ daysInMonth y m then
            some ⟨y, m, d⟩
          else none
      | _, _, _ => none
  | _ => none

/-- The handler's observable responses: the 200 payload (`date_kst` and
`items`; `count` is `items.length`), the 400 invalid-date response, and
the 500 `{error, detail}` response. -/
inductive Resp where
  | ok : Date → List Article → Resp
  | badRequest : Resp
  | serverError : Resp

/-- Is the response the 400 client error? -/
def Resp.isClientError : Resp → Bool
  | .badRequest => true
  | _ => false

/-- Is the response the 500 server error? -/
def Resp.isServerError : Resp → Bool
  | .serverError => true
  | _ => false

/-- Model of `ai_today`: parameter merge, date validation, limit/sleep resolution
(the sleep value affects no observable output), crawl, response assembly.
`now` is `datetime.now(KST).date()`. -/
def ai_today (localOff : Int) (enum : List String → List String)
    (web : String → Option CatDoc) (pages : String → Option ArticleDoc)
    (now : Date) (r : HttpReq) : Resp :=
  let dateStr := effDate r
  let todayOpt : Option (Option Date) :=
    match dateStr with
    | none => some none
    | some s =>
        if s = "" then some none
        else
          match parseDateParam s with
          | some d => some (some d)
          | none => none
  match todayOpt with
  | none => .badRequest
  | some odate =>
      let today := odate.getD now
      let limit := resolveLimit (effLimit r)
      match crawl_today localOff enum web pages (effCatUrl r) today limit.toNat with
      | none => .serverError
      | some items => .ok today items

/-! ## Lemmas about the link set -/

/-- A url that can appear in the collected set: the normalization of some
discovered href that passed the predicate. -/
def FromArticleHref (u : String) : Prop :=
  ∃ href, is_article_url href = true ∧ u = normalize_link href

theorem insertLink_nodup {l : List String} {u : String} (h : l.Nodup) :
    (insertLink l u).Nodup := by
  unfold insertLink
  split
  · exact h
  · next hu =>
      refine List.nodup_append.mpr ⟨h, List.nodup_singleton u, ?_⟩
      intro x hx hxu
      exact hu (by simpa using (List.mem_singleton.mp hxu) ▸ hx)

theorem mem_insertLink {l : List String} {u x : String} :
    x ∈ insertLink l u ↔ x ∈ l ∨ x = u := by
  unfold insertLink
  split
  · next hu => exact ⟨Or.inl, fun h => h.elim id (fun hx => hx ▸ hu)⟩
  · simp

theorem insertLink_pred {P : String → Prop} {l : List String} {u : String}
    (hl : ∀ x ∈ l, P x) (hu : P u) : ∀ x ∈ insertLink l u, P x := by
  intro x hx
  rcases mem_insertLink.mp hx with h | h
  · exact hl x h
  · exact h ▸ hu

theorem linkPass1Go_nodup (h3s : List (Option String)) :
    ∀ acc : List String, acc.Nodup → (linkPass1Go acc h3s).Nodup := by
  induction h3s with
  | nil => intro acc h; exact h
  | cons hd tl ih =>
      intro acc h
      cases hd with
      | none => exact ih acc h
      | some href =>
          refine ih _ ?_
          split
          · exact insertLink_nodup h
          · exact h

theorem linkPass1Go_pred {P : String → Prop}
    (hP : ∀ href, is_article_url href = true → P (normalize_link href))
    (h3s : List (Option String)) :
    ∀ acc : List String, (∀ x ∈ acc, P x) → ∀ x ∈ linkPass1Go acc h3s, P x := by
  induction h3s with
  | nil => intro acc h; exact h
  | cons hd tl ih =>
      intro acc h
      cases hd with
      | none => exact ih acc h
      | some href =>
          refine ih _ ?_
          split
          · next ha => exact insertLink_pred h (hP href ha)
          · exact h

theorem linkPass2_nodup (limit : Nat) (anchors : List String) :
    ∀ acc : List String, acc.Nodup → (linkPass2 limit acc anchors).Nodup := by
  induction anchors with
  | nil => intro acc h; exact h
  | cons hd tl ih =>
      intro acc h
      simp only [linkPass2]
      set X := if is_article_url hd then insertLink acc (normalize_link hd) else acc with hX
      have hXn : X.Nodup := by
        rw [hX]
        split
        · exact insertLink_nodup h
        · exact h
      split
      · exact hXn
      · exact ih X hXn

theorem linkPass2_pred {P : String → Prop}
    (hP : ∀ href, is_article_url href = true → P (normalize_link href))
    (limit : Nat) (anchors : List String) :
    ∀ acc : List String, (∀ x ∈ acc, P x) → ∀ x ∈ linkPass2 limit acc anchors, P x := by
  induction anchors with
  | nil => intro acc h; exact h
  | cons hd tl ih =>
      intro acc h
      simp only [linkPass2]
      set X := if is_article_url hd then insertLink acc (normalize_link hd) else acc with hX
      have hXp : ∀ x ∈ X, P x := by
        rw [hX]
        split
        · next ha => exact insertLink_pred h (hP hd ha)
        · exact h
      split
      · exact hXp
      · exact ih X hXp

theorem collectedLinks_nodup (doc : CatDoc) (limit : Nat) :
    (collectedLinks doc limit).Nodup := by
  have h1 := linkPass1Go_nodup doc.h3s [] List.nodup_nil
  by_cases hc : (linkPass1Go [] doc.h3s).length < limit
  · simp only [collectedLinks, linkPass1, if_pos hc]
    exact linkPass2_nodup limit doc.anchors _ h1
  · simp only [collectedLinks, linkPass1, if_neg hc]
    exact h1

theorem collectedLinks_fromArticleHref (doc : CatDoc) (limit : Nat) :
    ∀ u ∈ collectedLinks doc limit, FromArticleHref u := by
  have hP : ∀ href, is_article_url href = true → FromArticleHref (normalize_link href) :=
    fun href h => ⟨href, h, rfl⟩
  have h1 := linkPass1Go_pred hP doc.h3s [] (by intro x hx; cases hx)
  by_cases hc : (linkPass1Go [] doc.h3s).length < limit
  · simp only [collectedLinks, linkPass1, if_pos hc]
    exact linkPass2_pred hP limit doc.anchors _ h1
  · simp only [collectedLinks, linkPass1, if_neg hc]
    exact h1

/-! ## Absoluteness of normalized links -/

/-- Does a URL string carry a scheme?  (What "absolute URL" amounts to for
the strings `urljoin` can produce here.) -/
def isAbsoluteUrl (s : String) : Bool :=
  !(urlsplitL s.toList).scheme.isEmpty

theorem urlsplitL_scheme (l : List Char) :
    (urlsplitL l).scheme = (schemeSplit l).1 := rfl

theorem schemeSplit_https (rest : List Char) :
    schemeSplit ('h' :: 't' :: 't' :: 'p' :: 's' :: ':' :: rest) =
      (['h', 't', 't', 'p', 's'], rest) := by
  simp [schemeSplit, splitAtColon, isSchemeChar]

theorem urlsplitL_https (r : List Char) :
    (urlsplitL ('h' :: 't' :: 't' :: 'p' :: 's' :: ':' :: r)).scheme =
      ['h', 't', 't', 'p', 's'] := by
  rw [urlsplitL_scheme, schemeSplit_https]

theorem urlunsplitL_https_head (p : UrlParts) (h : p.scheme = ['h', 't', 't', 'p', 's']) :
    ∃ r, urlunsplitL p = 'h' :: 't' :: 't' :: 'p' :: 's' :: ':' :: r := by
  unfold urlunsplitL
  rw [h, if_pos (by simp : (['h', 't', 't', 'p', 's'] : List Char) ≠ [])]
  refine ⟨unsplitCore p ++ ((if p.query ≠ [] then '?' :: p.query else []) ++
    (if p.frag ≠ [] then '#' :: p.frag else [])), ?_⟩
  simp [List.append_assoc]

/-- Every result of `urljoin` from an `https` base keeps a nonempty
scheme: either the base's `https`, or the href's own scheme when the href
is returned unchanged. -/
theorem urljoin_scheme_nonempty (base url : List Char) (hb : base ≠ [])
    (hbs : (urlsplitL base).scheme = ['h', 't', 't', 'p', 's']) :
    (urlsplitL (urljoinL base url)).scheme ≠ [] := by
  have key : ∀ X : UrlParts, X.scheme = ['h', 't', 't', 'p', 's'] →
      (urlsplitL (urlunsplitL X)).scheme ≠ [] := by
    intro X hX
    obtain ⟨r, hr⟩ := urlunsplitL_https_head X hX
    rw [hr, urlsplitL_https]
    simp
  by_cases hu : url = []
  · subst hu
    rw [urljoinL, if_neg hb, if_pos rfl, hbs]
    simp
  · rw [urljoinL, if_neg hb, if_neg hu]
    set U := urlsplitL url with hU
    set B := urlsplitL base with hB
    set scheme := if U.scheme = [] then B.scheme else U.scheme with hscheme
    by_cases h1 : (scheme ≠ B.scheme || !usesRelative scheme) = true
    · rw [if_pos h1]
      -- the href is returned unchanged; its own scheme must be nonempty
      intro hc
      have hUs : U.scheme = [] := by rw [hU]; exact hc
      rw [hscheme, if_pos hUs] at h1
      rw [hbs] at h1
      exact absurd h1 (by decide)
    · rw [if_neg h1]
      have hs : scheme = ['h', 't', 't', 'p', 's'] := by
        simp only [Bool.or_eq_true, decide_eq_true_eq, Bool.not_eq_true'] at h1
        push_neg at h1
        rw [h1.1]
        exact hbs
      split
      · exact key _ hs
      · split
        · exact key _ hs
        · exact key _ hs

/-- Model of `normalize_link` always yields a URL with a scheme. -/
theorem normalize_link_absolute (href : String) :
    isAbsoluteUrl (normalize_link href) = true := by
  have h := urljoin_scheme_nonempty CATEGORY_URL.toList href.toList
    (by decide) (by decide)
  unfold isAbsoluteUrl normalize_link urljoinS
  simp only [List.isEmpty_eq_true, Bool.not_eq_true']
  -- `(⟨l⟩ : String).toList = l`
  simpa using h

/-! ## Guarantees of `get_article_links` -/

theorem get_article_links_length_le (doc : CatDoc) (limit : Nat)
    (enum : List String → List String) :
    (get_article_links doc limit enum).length ≤ limit := by
  unfold get_article_links
  rw [List.length_take]
  exact min_le_left _ _

theorem get_article_links_nodup (doc : CatDoc) (limit : Nat)
    (enum : List String → List String) (he : ValidEnum enum) :
    (get_article_links doc limit enum).Nodup := by
  have hnd : (enum (collectedLinks doc limit)).Nodup :=
    (he (collectedLinks doc limit)).nodup_iff.mpr (collectedLinks_nodup doc limit)
  exact hnd.sublist (List.take_sublist _ _)

theorem get_article_links_subset (doc : CatDoc) (limit : Nat)
    (enum : List String → List String) (he : ValidEnum enum) :
    ∀ u ∈ get_article_links doc limit enum, u ∈ collectedLinks doc limit := by
  intro u hu
  exact (he (collectedLinks doc limit)).mem_iff.mp ((List.take_sublist _ _).subset hu)

/-- A category page whose two `<h3>`-wrapped links are both articles. -/
def catDocAB : CatDoc :=
  ⟨[some "https://techcrunch.com/2025/01/a/", some "https://techcrunch.com/2025/01/b/"], []⟩

/-- A category page with one `<h3>`-wrapped relative link carrying a
dot-segment. -/
def catDocDots : CatDoc :=
  ⟨[some "/2025/01/.."], []⟩

/-- C3, counterexample.  Two legitimate enumerations of the link set (the
identity and the reversal — both are permutations, as every CPython set
iteration is) yield the same markup's links in different orders, so the
output order is not a function of markup, base URL and limit, and cannot
be claimed to follow document discovery order. -/
theorem spec_C3_counterexample :
    ValidEnum id ∧ ValidEnum List.reverse ∧
    get_article_links catDocAB 10 id ≠ get_article_links catDocAB 10 List.reverse :=
  ⟨fun l => List.Perm.refl l, fun l => List.reverse_perm l, by decide⟩

/-- C3, amended: for every category-page markup and limit, the collected
membership-set of candidate URLs is a deterministic function of the markup
(and the returned list is one of its enumerations): the output has at most
`limit` elements, no duplicates, draws only from the collected set, and —
whenever the collected set is within the limit — has exactly the collected
set's membership.  Its order is an unspecified set-iteration order, not
document order. -/
theorem spec_C3 (doc : CatDoc) (limit : Nat) (enum : List String → List String)
    (he : ValidEnum enum) :
    (get_article_links doc limit enum).length ≤ limit ∧
    (get_article_links doc limit enum).Nodup ∧
    (∀ u ∈ get_article_links doc limit enum, u ∈ collectedLinks doc limit) ∧
    ((collectedLinks doc limit).length ≤ limit →
      ∀ u, u ∈ get_article_links doc limit enum ↔ u ∈ collectedLinks doc limit) := by
  refine ⟨get_article_links_length_le doc limit enum,
    get_article_links_nodup doc limit enum he,
    get_article_links_subset doc limit enum he, ?_⟩
  intro hlen u
  have hle : (enum (collectedLinks doc limit)).length ≤ limit := by
    rw [(he (collectedLinks doc limit)).length_eq]
    exact hlen
  unfold get_article_links
  rw [List.take_of_length_le hle]
  exact (he (collectedLinks doc limit)).mem_iff

/-- C3, witness: the guarantees evaluated at a concrete page and the
identity enumeration. -/
theorem spec_C3_witness :
    (get_article_links catDocAB 10 id).length ≤ 10 ∧
    (get_article_links catDocAB 10 id).Nodup ∧
    ((collectedLinks catDocAB 10).length ≤ 10 →
      ∀ u, u ∈ get_article_links catDocAB 10 id ↔ u ∈ collectedLinks catDocAB 10) :=
  ⟨(spec_C3 catDocAB 10 id (fun l => List.Perm.refl l)).1,
   (spec_C3 catDocAB 10 id (fun l => List.Perm.refl l)).2.1,
   (spec_C3 catDocAB 10 id (fun l => List.Perm.refl l)).2.2.2⟩

/-- C6, counterexample.  The predicate is checked on the raw href, before
normalization; `urljoin`'s dot-segment resolution can erase the
`/YYYY/MM/` segment, so a returned element need not satisfy the
article-URL predicate: the href `/2025/01/..` passes the predicate but
normalizes to `https://techcrunch.com/2025/`, which fails it. -/
theorem spec_C6_counterexample :
    ValidEnum id ∧
    get_article_links catDocDots 5 id = ["https://techcrunch.com/2025/"] ∧
    is_article_url "https://techcrunch.com/2025/" = false :=
  ⟨fun l => List.Perm.refl l, by decide, by decide⟩

/-- C6, amended: the returned list has at most `limit` elements, no two
equal as strings, and every element is an absolute URL (it carries a
scheme) obtained by normalizing some discovered href that satisfied the
article-URL predicate; the normalized string itself can fail the predicate
when relative-path resolution removes the year-month segment. -/
theorem spec_C6 (doc : CatDoc) (limit : Nat) (enum : List String → List String)
    (he : ValidEnum enum) :
    (get_article_links doc limit enum).length ≤ limit ∧
    (get_article_links doc limit enum).Nodup ∧
    ∀ u ∈ get_article_links doc limit enum,
      isAbsoluteUrl u = true ∧ ∃ href, is_article_url href = true ∧ u = normalize_link href := by
  refine ⟨get_article_links_length_le doc limit enum,
    get_article_links_nodup doc limit enum he, ?_⟩
  intro u hu
  obtain ⟨href, hhref, hnorm⟩ :=
    collectedLinks_fromArticleHref doc limit u (get_article_links_subset doc limit enum he u hu)
  exact ⟨hnorm ▸ normalize_link_absolute href, href, hhref, hnorm⟩

/-- C6, witness: the guarantees evaluated at a concrete page and the
identity enumeration. -/
theorem spec_C6_witness :
    (get_article_links catDocAB 10 id).length ≤ 10 ∧
    ∀ u ∈ get_article_links catDocAB 10 id, isAbsoluteUrl u = true :=
  ⟨(spec_C6 catDocAB 10 id (fun l => List.Perm.refl l)).1,
   fun u hu => ((spec_C6 catDocAB 10 id (fun l => List.Perm.refl l)).2.2 u hu).1⟩

/-! ## Characterizing the article-URL predicate -/

theorem ymAt_iff (l : List Char) :
    ymAt l = true ↔
      ∃ a b c d post, l = '/' :: '2' :: '0' :: a :: b :: '/' :: c :: d :: '/' :: post ∧
        (a.isDigit && b.isDigit && c.isDigit && d.isDigit) = true := by
  constructor
  · intro h
    unfold ymAt at h
    split at h
    · next a b c d post => exact ⟨a, b, c, d, post, rfl, h⟩
    · exact absurd h (by simp)
  · rintro ⟨a, b, c, d, post, rfl, hd⟩
    simpa [ymAt] using hd

theorem hasYearMonth_iff (l : List Char) :
    hasYearMonth l = true ↔
      ∃ pre a b c d post,
        l = pre ++ '/' :: '2' :: '0' :: a :: b :: '/' :: c :: d :: '/' :: post ∧
        (a.isDigit && b.isDigit && c.isDigit && d.isDigit) = true := by
  induction l with
  | nil =>
      constructor
      · intro h; cases h
      · rintro ⟨pre, a, b, c, d, post, heq, -⟩
        cases pre <;> simp at heq
  | cons x xs ih =>
      rw [hasYearMonth, Bool.or_eq_true, ymAt_iff, ih]
      constructor
      · rintro (⟨a, b, c, d, post, heq, hd⟩ | ⟨pre, a, b, c, d, post, heq, hd⟩)
        · exact ⟨[], a, b, c, d, post, by simpa using heq, hd⟩
        · exact ⟨x :: pre, a, b, c, d, post, by rw [List.cons_append, ← heq], hd⟩
      · rintro ⟨pre, a, b, c, d, post, heq, hd⟩
        cases pre with
        | nil => exact Or.inl ⟨a, b, c, d, post, by simpa using heq, hd⟩
        | cons y ys =>
            rw [List.cons_append] at heq
            injection heq with h1 h2
            exact Or.inr ⟨ys, a, b, c, d, post, h2, hd⟩

theorem containsSub_iff (n l : List Char) :
    containsSub n l = true ↔ ∃ pre post, l = pre ++ n ++ post := by
  induction l with
  | nil =>
      simp only [containsSub, decide_eq_true_eq]
      constructor
      · intro h; exact ⟨[], [], by simp [h]⟩
      · rintro ⟨pre, post, heq⟩
        rcases List.append_eq_nil.mp (List.append_eq_nil.mp heq.symm).1 with ⟨-, h2⟩
        exact h2
  | cons x xs ih =>
      rw [containsSub, Bool.or_eq_true, ih]
      have hocc : occursAt n (x :: xs) = true ↔ ∃ t, n ++ t = x :: xs := by
        rw [occursAt, List.isPrefixOf_iff_prefix]
        exact Iff.rfl
      rw [hocc]
      constructor
      · rintro (⟨t, ht⟩ | ⟨pre, post, heq⟩)
        · exact ⟨[], t, by rw [← ht]; simp⟩
        · exact ⟨x :: pre, post, by simp [heq]⟩
      · rintro ⟨pre, post, heq⟩
        cases pre with
        | nil => exact Or.inl ⟨post, by simpa using heq.symm⟩
        | cons y ys =>
            rw [List.cons_append, List.cons_append] at heq
            injection heq with h1 h2
            exact Or.inr ⟨ys, post, by simpa using h2⟩

/-! ## C4: what the normalizer and predicate actually do -/

/-- Modelled from the spec (refinement comparison): "resolve every
discovered href against the category page's URL" — a normalizer taking the
caller's category page as base. -/
def normalize_link_spec (categoryUrl href : String) : String :=
  urljoinS categoryUrl href

/-- Modelled from the spec (refinement comparison): "same host as the
category page (or a host-relative link), AND path contains a `/YYYY/MM/`
year-month segment" — host equality against the category page's host. -/
def is_article_url_spec (categoryUrl href : String) : Bool :=
  let cu := urlsplitL categoryUrl.toList
  let u := urlsplitL href.toList
  (u.netloc = cu.netloc || u.netloc = []) && hasYearMonth u.path

/-- C4, counterexample.  With a caller-supplied category page
`https://example.com/news/`: the code resolves `/2025/01/foo` against the
module constant (yielding a `techcrunch.com` URL), not against the
caller's page; a link on the category page's own host is rejected; and a
link whose host merely contains `techcrunch.com` as a substring
(`techcrunch.com.evil.org`) is accepted, though its host differs from the
default category page's host. -/
theorem spec_C4_counterexample :
    normalize_link "/2025/01/foo" ≠ normalize_link_spec "https://example.com/news/" "/2025/01/foo" ∧
    is_article_url "https://example.com/2025/01/a/" = false ∧
    is_article_url_spec "https://example.com/news/" "https://example.com/2025/01/a/" = true ∧
    is_article_url "https://techcrunch.com.evil.org/2025/01/a/" = true ∧
    is_article_url_spec CATEGORY_URL "https://techcrunch.com.evil.org/2025/01/a/" = false :=
  ⟨by decide, by decide, by decide, by decide, by decide⟩

/-- C4, amended: every discovered href is resolved against the fixed
default category URL (`CATEGORY_URL`), whatever category page the caller
supplied; and the predicate accepts a link iff its netloc contains
`techcrunch.com` as a substring or is empty, and its path contains a
`/20YY/MM/` segment (`/`, `2`, `0`, two digits, `/`, two digits, `/`)
anywhere. -/
theorem spec_C4 (href : String) :
    normalize_link href = urljoinS CATEGORY_URL href ∧
    (is_article_url href = true ↔
      ((∃ pre post, (urlsplitL href.toList).netloc = pre ++ "techcrunch.com".toList ++ post) ∨
        (urlsplitL href.toList).netloc = []) ∧
      ∃ pre a b c d post,
        (urlsplitL href.toList).path =
          pre ++ '/' :: '2' :: '0' :: a :: b :: '/' :: c :: d :: '/' :: post ∧
        (a.isDigit && b.isDigit && c.isDigit && d.isDigit) = true) := by
  refine ⟨rfl, ?_⟩
  unfold is_article_url
  simp only [Bool.and_eq_true, Bool.or_eq_true, containsSub_iff, hasYearMonth_iff,
    decide_eq_true_eq]

/-! ## Membership in the crawl results -/

theorem parse_article_fields (localOff : Int) (url : String) (doc : ArticleDoc)
    (art : Article) (h : parse_article localOff url doc = some art) :
    art.published_utc = (resolve_published doc).map (astz localOff 0) ∧
    art.published_kst = (resolve_published doc).map (astz localOff 540) := by
  unfold parse_article at h
  cases hb : bodyOf doc with
  | none => rw [hb] at h; cases h
  | some s =>
      rw [hb] at h
      injection h with h2
      rw [← h2]
      exact ⟨rfl, rfl⟩

theorem mem_crawlLoop (localOff : Int) (pages : String → Option ArticleDoc) (today : Date)
    (urls : List String) (art : Article) :
    art ∈ crawlLoop localOff pages today urls ↔
      ∃ url ∈ urls, ∃ doc, pages url = some doc ∧
        parse_article localOff url doc = some art ∧
        ∃ aw, art.published_kst = some aw ∧ is_today_kst aw today = true := by
  induction urls with
  | nil => simp [crawlLoop]
  | cons u rest ih =>
      constructor
      · intro h
        rw [crawlLoop] at h
        cases hpu : pages u with
        | none =>
            simp only [hpu] at h
            obtain ⟨url, hmem, hrest⟩ := ih.mp h
            exact ⟨url, List.mem_cons_of_mem u hmem, hrest⟩
        | some doc =>
            simp only [hpu] at h
            cases hpa : parse_article localOff u doc with
            | none =>
                simp only [hpa] at h
                obtain ⟨url, hmem, hrest⟩ := ih.mp h
                exact ⟨url, List.mem_cons_of_mem u hmem, hrest⟩
            | some a =>
                simp only [hpa] at h
                cases hpk : a.published_kst with
                | none =>
                    simp only [hpk] at h
                    obtain ⟨url, hmem, hrest⟩ := ih.mp h
                    exact ⟨url, List.mem_cons_of_mem u hmem, hrest⟩
                | some aw =>
                    simp only [hpk] at h
                    by_cases ht : is_today_kst aw today = true
                    · rw [if_pos ht] at h
                      rcases List.mem_cons.mp h with rfl | hmem
                      · exact ⟨u, List.mem_cons_self u rest, doc, hpu, hpa, aw, hpk, ht⟩
                      · obtain ⟨url, hmem2, hrest⟩ := ih.mp hmem
                        exact ⟨url, List.mem_cons_of_mem u hmem2, hrest⟩
                    · rw [if_neg ht] at h
                      obtain ⟨url, hmem, hrest⟩ := ih.mp h
                      exact ⟨url, List.mem_cons_of_mem u hmem, hrest⟩
      · rintro ⟨url, hmem, doc, hpu, hpa, aw, hpk, ht⟩
        rw [crawlLoop]
        rcases List.mem_cons.mp hmem with rfl | hmem2
        · simp only [hpu, hpa, hpk, if_pos ht]
          exact List.mem_cons_self _ _
        · have htail : art ∈ crawlLoop localOff pages today rest :=
            ih.mpr ⟨url, hmem2, doc, hpu, hpa, aw, hpk, ht⟩
          cases hpu2 : pages u with
          | none => simp only [hpu2]; exact htail
          | some doc2 =>
              simp only [hpu2]
              cases hpa2 : parse_article localOff u doc2 with
              | none => simp only [hpa2]; exact htail
              | some a2 =>
                  simp only [hpa2]
                  cases hpk2 : a2.published_kst with
                  | none => simp only [hpk2]; exact htail
                  | some aw2 =>
                      simp only [hpk2]
                      by_cases ht2 : is_today_kst aw2 today = true
                      · rw [if_pos ht2]
                        exact List.mem_cons_of_mem _ htail
                      · rw [if_neg ht2]
                        exact htail

/-! ## C1: the today-filter invariant -/

/-- C1: for every orchestrator run (category fetch succeeded), an Article
is in the returned list iff some discovered link's page was fetched and
parsed into it and its resolved publication instant, rendered at the fixed
KST offset, falls on the run's reference calendar date; an article whose
timestamp resolution failed (all four strategies) is never present, since
`resolve_published doc = some p` is required. -/
theorem spec_C1 (localOff : Int) (enum : List String → List String)
    (web : String → Option CatDoc) (pages : String → Option ArticleDoc)
    (categoryUrl : String) (today : Date) (limit : Nat) (cat : CatDoc)
    (arts : List Article)
    (hcat : web categoryUrl = some cat)
    (hrun : crawl_today localOff enum web pages categoryUrl today limit = some arts)
    (art : Article) :
    art ∈ arts ↔
      ∃ url ∈ get_article_links cat limit enum, ∃ doc, pages url = some doc ∧
        parse_article localOff url doc = some art ∧
        ∃ p, resolve_published doc = some p ∧ kstDate (p.instantOf localOff) = today := by
  unfold crawl_today at hrun
  rw [hcat] at hrun
  injection hrun with harts
  rw [← harts, mem_crawlLoop]
  constructor
  · rintro ⟨url, hmem, doc, hpu, hpa, aw, hpk, ht⟩
    have hf := (parse_article_fields localOff url doc art hpa).2
    rw [hf] at hpk
    obtain ⟨p, hp, hap⟩ := Option.map_eq_some'.mp hpk
    refine ⟨url, hmem, doc, hpu, hpa, p, hp, ?_⟩
    rw [← hap] at ht
    simpa [is_today_kst, astz] using ht
  · rintro ⟨url, hmem, doc, hpu, hpa, p, hp, hdate⟩
    have hf := (parse_article_fields localOff url doc art hpa).2
    refine ⟨url, hmem, doc, hpu, hpa, astz localOff 540 p, ?_, ?_⟩
    · rw [hf, hp]
      rfl
    · simpa [is_today_kst, astz] using hdate

/-- The concrete article page used by the C1/C9 witnesses: one meta tag
carrying an aware ISO-8601 timestamp. -/
def docW : ArticleDoc :=
  { metaByProperty := some ⟨some "2025-09-10T03:00:00+00:00"⟩, metaByName := none,
    ldScripts := [], timeTag := none, pageText := "", h1 := some "T", paragraphs := [] }

/-- The link the witness category page advertises. -/
def linkW : String := "https://techcrunch.com/2025/09/a/"

/-- The witness category page. -/
def catW : CatDoc := ⟨[some linkW], []⟩

/-- The witness page table. -/
def pagesW : String → Option ArticleDoc := fun u => if u = linkW then some docW else none

/-- The article `parse_article` extracts from `docW` (instant
1757473200 = 2025-09-10T03:00:00Z). -/
def artW : Article :=
  { url := linkW, title := "T", published_utc := some ⟨1757473200, 0⟩,
    published_kst := some ⟨1757473200, 540⟩, body := "" }

/-- C1, witness: the concrete run produces exactly `[artW]`, and
membership follows from the theorem's right-to-left direction with every
hypothesis discharged by evaluation. -/
theorem spec_C1_witness : artW ∈ [artW] :=
  (spec_C1 0 id (fun _ => some catW) pagesW "c" ⟨2025, 9, 10⟩ 5 catW [artW]
      rfl (by decide) artW).mpr
    ⟨linkW, by decide, docW, rfl, by decide, ⟨2025, 9, 10, 3, 0, 0, some 0⟩,
      by decide, by decide⟩

/-! ## C5: strategy precedence -/

/-- C5: when the meta tag yields a parseable timestamp and the JSON-LD
blocks yield a different one, the resolver returns the meta-tag value —
the chain consults the meta tag first and never merges. -/
theorem spec_C5 (doc : ArticleDoc) (d1 d2 : ParsedDT)
    (hmeta : get_meta_datetime doc = some d1)
    (_hld : get_ldjson_datetime doc.ldScripts = some d2)
    (_hne : d1 ≠ d2) :
    resolve_published doc = some d1 := by
  unfold resolve_published
  rw [hmeta]

/-- The conflicting page for the C5 witness: meta tag says 2025-09-10,
JSON-LD says 2025-09-11. -/
def docConflict : ArticleDoc :=
  { metaByProperty := some ⟨some "2025-09-10T00:00:00+00:00"⟩, metaByName := none,
    ldScripts := [some (.obj [("@type", Json.str "NewsArticle"),
      ("datePublished", Json.str "2025-09-11T00:00:00+00:00")])],
    timeTag := none, pageText := "", h1 := none, paragraphs := [] }

/-- C5, witness: on the conflicting page the resolver returns the
meta-tag instant. -/
theorem spec_C5_witness :
    resolve_published docConflict = some ⟨2025, 9, 10, 0, 0, 0, some 0⟩ :=
  spec_C5 docConflict ⟨2025, 9, 10, 0, 0, 0, some 0⟩ ⟨2025, 9, 11, 0, 0, 0, some 0⟩
    rfl rfl (by decide)

/-! ## C7: the resolver degrades to `none`, never raises -/

/-- C7: whenever all four strategies yield nothing (absent or malformed
sources), the resolver yields nothing; every strategy in the model is a
total function, mirroring the code's catch-and-continue behaviour, so no
error escapes. -/
theorem spec_C7 (doc : ArticleDoc)
    (h1 : get_meta_datetime doc = none)
    (h2 : get_ldjson_datetime doc.ldScripts = none)
    (h3 : get_time_tag_datetime doc = none)
    (h4 : get_text_datetime_fallback doc = none) :
    resolve_published doc = none := by
  unfold resolve_published
  rw [h1, h2, h3, h4]

/-- A page on which all four sources are present but malformed: a
non-ISO meta content, a JSON-LD block `json.loads` rejects plus one with a
bad `datePublished` plus a non-object one, a `<time>` with unparseable
attribute and text, and page text whose only month-day-year pattern has an
impossible day. -/
def docMalformed : ArticleDoc :=
  { metaByProperty := some ⟨some "not-a-date"⟩,
    metaByName := some ⟨some "2025-09-10T00:00:00+00:00"⟩,
    ldScripts := [none,
      some (.obj [("@type", Json.str "NewsArticle"), ("datePublished", Json.str "202X")]),
      some (.str "stray")],
    timeTag := some ⟨some "13 oclock", "yesterday noon"⟩,
    pageText := "September 32, 2025", h1 := none, paragraphs := [] }

/-- C7, witness: on the everything-malformed page the resolver evaluates
to `none` (note the well-formed `metaByName` tag is shadowed by the
malformed property tag, as in the code). -/
theorem spec_C7_witness : resolve_published docMalformed = none :=
  spec_C7 docMalformed rfl rfl rfl rfl

/-! ## C9: one instant, two renderings -/

/-- C9: in every emitted article whose timestamp resolved, the UTC and
KST fields carry the same absolute instant — both are `astimezone`
conversions of the single resolved instant — and differ only in the
rendered offset (0 vs +540 minutes). -/
theorem spec_C9 (localOff : Int) (url : String) (doc : ArticleDoc) (art : Article)
    (u k : Aware)
    (hp : parse_article localOff url doc = some art)
    (hu : art.published_utc = some u) (hk : art.published_kst = some k) :
    u.instant = k.instant ∧ u.offset = 0 ∧ k.offset = 540 ∧
    ∃ p, resolve_published doc = some p ∧ u.instant = p.instantOf localOff := by
  obtain ⟨hfu, hfk⟩ := parse_article_fields localOff url doc art hp
  rw [hfu] at hu
  rw [hfk] at hk
  obtain ⟨p1, hp1, hap1⟩ := Option.map_eq_some'.mp hu
  obtain ⟨p2, hp2, hap2⟩ := Option.map_eq_some'.mp hk
  have hpp : p1 = p2 := by
    rw [hp1] at hp2
    injection hp2
  subst hpp
  rw [← hap1, ← hap2]
  exact ⟨rfl, rfl, rfl, p1, hp1, rfl⟩

/-- C9, witness: the two timestamp fields of the concretely extracted
article share the instant 1757473200 and carry offsets 0 and 540. -/
theorem spec_C9_witness :
    (Aware.mk 1757473200 0).instant = (Aware.mk 1757473200 540).instant ∧
    (Aware.mk 1757473200 0).offset = 0 ∧ (Aware.mk 1757473200 540).offset = 540 ∧
    ∃ p, resolve_published docW = some p ∧
      (Aware.mk 1757473200 0).instant = p.instantOf 0 :=
  spec_C9 0 linkW docW artW ⟨1757473200, 0⟩ ⟨1757473200, 540⟩ rfl rfl rfl

/-! ## Handler-level helper lemmas -/

theorem ai_today_ok (localOff : Int) (enum : List String → List String)
    (web : String → Option CatDoc) (pages : String → Option ArticleDoc)
    (now : Date) (r : HttpReq) (cat : CatDoc)
    (hd : effDate r = none) (hweb : web (effCatUrl r) = some cat) :
    ai_today localOff enum web pages now r =
      .ok now (crawlLoop localOff pages now
        (get_article_links cat (resolveLimit (effLimit r)).toNat enum)) := by
  unfold ai_today crawl_today
  rw [hd, hweb]
  rfl

theorem ai_today_serverError (localOff : Int) (enum : List String → List String)
    (web : String → Option CatDoc) (pages : String → Option ArticleDoc)
    (now : Date) (r : HttpReq)
    (hd : effDate r = none) (hweb : web (effCatUrl r) = none) :
    ai_today localOff enum web pages now r = .serverError := by
  unfold ai_today crawl_today
  rw [hd, hweb]

/-! ## C2: which value wins when a parameter is in both query and body -/

/-- A POST request carrying `date` both in the query string and in the
JSON body, with different values. -/
def reqConflict : HttpReq :=
  { isPost := true, qDate := some "2025-01-01", qLimit := none, qSleep := none,
    qCat := none,
    body := some { date := some "2025-02-02", limit := none, sleep := none,
                   categoryUrl := none } }

/-- An empty category page. -/
def emptyCat : CatDoc := ⟨[], []⟩

/-- C2: the code resolves a parameter present in both query string and
body to the **body** value (`body.get(k, query_value)` lets the body
override), contradicting both the claim and the code's own comment
("쿼리 > 바디", query over body): with query `date=2025-01-01` and body
`date=2025-02-02`, the handler runs on — and reports — 2025-02-02. -/
theorem spec_C2_bug :
    reqConflict.qDate = some "2025-01-01" ∧
    reqConflict.body.map BodyJson.date = some (some "2025-02-02") ∧
    effDate reqConflict = some "2025-02-02" ∧
    ai_today 0 id (fun _ => some emptyCat) (fun _ => none) ⟨2025, 3, 3⟩ reqConflict =
      .ok ⟨2025, 2, 2⟩ [] := by
  refine ⟨rfl, rfl, rfl, ?_⟩
  rfl

/-! ## C8: failure isolation -/

/-- C8: a fetch/parse failure on one article page (`pages u = none`)
removes exactly that url from the loop — the articles produced are those
of the remaining urls, unchanged — and the handler still answers 200;
whereas a failed category-page fetch makes the whole request answer the
500 response. -/
theorem spec_C8 (localOff : Int) (enum : List String → List String)
    (pages : String → Option ArticleDoc) (today : Date) :
    (∀ (l1 l2 : List String) (u : String), pages u = none →
      crawlLoop localOff pages today (l1 ++ u :: l2) =
        crawlLoop localOff pages today (l1 ++ l2)) ∧
    (∀ (web : String → Option CatDoc) (r : HttpReq) (now : Date) (cat : CatDoc),
      effDate r = none → web (effCatUrl r) = some cat →
      ∃ items, ai_today localOff enum web pages now r = .ok now items) ∧
    (∀ (web : String → Option CatDoc) (r : HttpReq) (now : Date),
      effDate r = none → web (effCatUrl r) = none →
      ai_today localOff enum web pages now r = .serverError) := by
  refine ⟨?_, ?_, ?_⟩
  · intro l1 l2 u hu
    induction l1 with
    | nil => simp [crawlLoop, hu]
    | cons x xs ih =>
        rw [List.cons_append, List.cons_append, crawlLoop, crawlLoop, ih]
  · intro web r now cat hd hweb
    exact ⟨_, ai_today_ok localOff enum web pages now r cat hd hweb⟩
  · intro web r now hd hweb
    exact ai_today_serverError localOff enum web pages now r hd hweb

/-- A second advertised link whose page fetch fails. -/
def linkBad : String := "https://techcrunch.com/2025/09/bad/"

/-- A category page advertising the good link and the failing one. -/
def catTwo : CatDoc := ⟨[some linkW, some linkBad], []⟩

/-- A request with no parameters at all. -/
def reqEmpty : HttpReq := ⟨false, none, none, none, none, none⟩

/-- C8, witness: with the concrete page table (`linkW` resolves, `linkBad`
raises) the loop over `[linkW, linkBad]` equals the loop over `[linkW]`;
the request over the two-link category page still answers 200; and a
category-fetch failure answers the 500 response. -/
theorem spec_C8_witness :
    crawlLoop 0 pagesW ⟨2025, 9, 10⟩ ([linkW] ++ linkBad :: []) =
      crawlLoop 0 pagesW ⟨2025, 9, 10⟩ ([linkW] ++ []) ∧
    (∃ items, ai_today 0 id (fun _ => some catTwo) pagesW ⟨2025, 9, 10⟩ reqEmpty =
      .ok ⟨2025, 9, 10⟩ items) ∧
    ai_today 0 id (fun _ => none) pagesW ⟨2025, 9, 10⟩ reqEmpty = .serverError :=
  ⟨(spec_C8 0 id pagesW ⟨2025, 9, 10⟩).1 [linkW] [] linkBad rfl,
   (spec_C8 0 id pagesW ⟨2025, 9, 10⟩).2.1 (fun _ => some catTwo) reqEmpty ⟨2025, 9, 10⟩
     catTwo rfl rfl,
   (spec_C8 0 id pagesW ⟨2025, 9, 10⟩).2.2 (fun _ => none) reqEmpty ⟨2025, 9, 10⟩ rfl rfl⟩

/-! ## C10: malformed limit/sleep fall back to the defaults -/

/-- C10: a present-but-unparseable `limit` resolves to the default 40 and
a present-but-unparseable `sleep` to the default 0.7; the handler answers
neither the 400 response (malformed limit/sleep never produce a client
error) nor any error at all when the crawl itself succeeds. -/
theorem spec_C10 (r : HttpReq) (ls ss : String) (localOff : Int)
    (enum : List String → List String) (web : String → Option CatDoc)
    (pages : String → Option ArticleDoc) (now : Date) (cat : CatDoc)
    (hl : effLimit r = some ls) (hlbad : pyInt ls = none)
    (hs : effSleep r = some ss) (hsbad : pyFloat ss = none)
    (hd : effDate r = none) (hweb : web (effCatUrl r) = some cat) :
    resolveLimit (effLimit r) = 40 ∧ resolveSleep (effSleep r) = 7/10 ∧
    (ai_today localOff enum web pages now r).isClientError = false ∧
    ∃ items, ai_today localOff enum web pages now r = .ok now items := by
  have hok := ai_today_ok localOff enum web pages now r cat hd hweb
  refine ⟨?_, ?_, ?_, _, hok⟩
  · rw [hl]
    unfold resolveLimit
    simp only [hlbad]
  · rw [hs]
    unfold resolveSleep
    simp only [hsbad]
  · rw [hok]
    rfl

/-- A request with malformed `limit` and `sleep` query parameters. -/
def reqBadParams : HttpReq := ⟨false, none, some "abc", some "fast", none, none⟩

/-- C10, witness: `limit=abc` and `sleep=fast` resolve to 40 and 0.7 and
the response is not a client error. -/
theorem spec_C10_witness :
    resolveLimit (effLimit reqBadParams) = 40 ∧
    resolveSleep (effSleep reqBadParams) = 7/10 ∧
    (ai_today 0 id (fun _ => some emptyCat) (fun _ => none) ⟨2025, 1, 1⟩
      reqBadParams).isClientError = false := by
  have h := spec_C10 reqBadParams "abc" "fast" 0 id (fun _ => some emptyCat) (fun _ => none)
    ⟨2025, 1, 1⟩ emptyCat rfl (by decide) rfl (by decide) rfl rfl
  exact ⟨h.1, h.2.1, h.2.2.1⟩
